import Mathlib

/-!
Verification of the powerful-form-hook library (src/src/index.ts and the
validator-combinator module) against its natural-language specification.

The TypeScript source is shallowly embedded below:
pure functions become Lean functions, JS records become association lists
(`List (String × ErrorState)`) or total functions, JS `throw` becomes
`Except`, and the asynchronous orchestration of `useForm` is modelled as a
sequential state machine on an explicit `FormState`, with the
`unmountRef`-after-`await` check exposed as an explicit `unmounted`
parameter at the resume point of each asynchronous continuation.
-/

namespace FormHook

/-- The four-valued per-field validator output (`ErrorType` in the source):
`Error_Keep`, `Error_Reset`, `Error_False`, or an error-message string. -/
inductive ErrorType where
  | keep
  | reset
  | efalse
  | msg (m : String)
deriving DecidableEq, Repr

/-- Per-field error state (`ErrorState` in the source):
`{error: boolean | undefined, message?: string, version: number}`. -/
structure ErrorState where
  error : Option Bool
  message : Option String
  version : Nat
deriving DecidableEq, Repr

/-- The state written for one field by a merge at version `v`: the body of
the three writing branches of `mergeError`; `keep` leaves the state as is. -/
def writeField (e : ErrorType) (v : Nat) (s : ErrorState) : ErrorState :=
  match e with
  | .reset => ⟨none, none, v⟩
  | .efalse => ⟨some false, none, v⟩
  | .msg m => ⟨some true, some m, v⟩
  | .keep => s

/-- One iteration of the `mergeError` loop for one field: the write happens
only under the version guard `version >= state.version`. -/
def mergeField (s : ErrorState) (e : ErrorType) (v : Nat) : ErrorState :=
  if s.version ≤ v then writeField e v s else s

/-- Whether an incoming result fires one of the three writing branches of
the `mergeError` loop (everything except `Error_Keep`). -/
def mergeWrites : ErrorType → Bool
  | .keep => false
  | _ => true

/-- Shallow embedding of `mergeError(states, errors, version)`
(src/src/index.ts, lines 198-230).  `states` is the JS object as an ordered
association list; `errors` is the incoming `ErrorsResult` as a total
function on field names.  The loop bodies that build `newStates` and set
the `change` flag are split into a `map` and an `any` over the same keys;
when no branch fired the original `states` object is returned. -/
def mergeError (states : List (String × ErrorState)) (errors : String → ErrorType)
    (version : Nat) : List (String × ErrorState) :=
  let newStates := states.map (fun p => (p.1, mergeField p.2 (errors p.1) version))
  let change := states.any (fun p => decide (p.2.version ≤ version) && mergeWrites (errors p.1))
  if change then newStates else states

theorem list_map_self {α : Type} (l : List α) (f : α → α) (h : ∀ a ∈ l, f a = a) :
    l.map f = l := by
  induction l with
  | nil => rfl
  | cons a t ih =>
    simp only [List.map_cons, h a (List.mem_cons_self a t)]
    rw [ih (fun x hx => h x (List.mem_cons_of_mem a hx))]

theorem mergeError_eq_map (states : List (String × ErrorState))
    (errors : String → ErrorType) (version : Nat) :
    mergeError states errors version
      = states.map (fun p => (p.1, mergeField p.2 (errors p.1) version)) := by
  unfold mergeError
  by_cases h : states.any (fun p => decide (p.2.version ≤ version) && mergeWrites (errors p.1)) = true
  · rw [if_pos h]
  · rw [if_neg h]
    simp only [List.any_eq_true, not_exists, not_and] at h
    refine (list_map_self _ _ ?_).symm
    intro p hp
    have hp' := h p hp
    simp only [Bool.and_eq_true, decide_eq_true_eq, not_and] at hp'
    unfold mergeField
    by_cases hv : p.2.version ≤ version
    · have hw : ¬ mergeWrites (errors p.1) = true := hp' hv
      have hk : errors p.1 = .keep := by
        cases herr : errors p.1 <;> simp [mergeWrites, herr] at hw ⊢
      simp [hv, hk, writeField]
    · simp [hv]

/-- C2: `mergeError` transforms each field of `states` pointwise: under the
version guard `version >= states[field].version`, `Error_Reset` yields
`{error: undefined, message: undefined, version}`, `Error_False` yields
`{error: false, message: undefined, version}`, a string `s` yields
`{error: true, message: s, version}`, and `Error_Keep` leaves the field
unchanged; when `version < states[field].version` the field is left
untouched whatever the incoming result is. -/
theorem mergeError_field_semantics (states : List (String × ErrorState))
    (errors : String → ErrorType) (version : Nat) :
    mergeError states errors version
      = states.map (fun p =>
          (p.1,
            if p.2.version ≤ version then
              match errors p.1 with
              | .reset => ⟨none, none, version⟩
              | .efalse => ⟨some false, none, version⟩
              | .msg s => ⟨some true, some s, version⟩
              | .keep => p.2
            else p.2)) := by
  rw [mergeError_eq_map]
  refine List.map_congr_left ?_
  intro p _
  unfold mergeField writeField
  rfl

/-- C9: `mergeError` returns its input `states` value itself whenever no
field is actually changed, i.e. whenever every field's incoming result is
`Error_Keep` or carries a version strictly below the field's stored
version. -/
theorem mergeError_identity_when_no_write (states : List (String × ErrorState))
    (errors : String → ErrorType) (version : Nat)
    (h : ∀ p ∈ states, errors p.1 = .keep ∨ version < p.2.version) :
    mergeError states errors version = states := by
  unfold mergeError
  rw [if_neg]
  simp only [List.any_eq_true, not_exists, not_and]
  intro p hp
  rcases h p hp with hk | hv
  · simp [hk, mergeWrites]
  · simp [Nat.not_le.mpr hv]

/-- Witness for C9 at a concrete input: a keep-only result leaves a
concrete one-field state untouched. -/
theorem mergeError_identity_when_no_write_witness :
    mergeError [("f", ⟨some true, some "m", 5⟩)] (fun _ => ErrorType.keep) 10
      = [("f", ⟨some true, some "m", 5⟩)] :=
  mergeError_identity_when_no_write _ _ _ (by intro p hp; left; rfl)

/-- One completed validation pass as seen by the error store: the
`ErrorsResult` it produced and the version it was stamped with. -/
structure MergePass where
  errs : String → ErrorType
  version : Nat

/-- Merging a collection of completed passes into the store, in the order
the passes happened to finish. -/
def mergeAll (states : List (String × ErrorState)) (passes : List MergePass) :
    List (String × ErrorState) :=
  passes.foldl (fun st p => mergeError st p.errs p.version) states

/-- The evolution of a single field's state across a sequence of merges,
each given as the incoming result for that field and the pass version. -/
def foldField (s : ErrorState) (l : List (ErrorType × Nat)) : ErrorState :=
  l.foldl (fun s ev => mergeField s ev.1 ev.2) s

theorem writeField_ver (e : ErrorType) (v : Nat) (s : ErrorState) (h : e ≠ .keep) :
    (writeField e v s).version = v := by
  cases e <;> simp [writeField] at h ⊢

theorem writeField_indep (e : ErrorType) (v : Nat) (s s' : ErrorState) (h : e ≠ .keep) :
    writeField e v s = writeField e v s' := by
  cases e <;> simp [writeField] at h ⊢

theorem mergeField_keep (s : ErrorState) (v : Nat) : mergeField s .keep v = s := by
  unfold mergeField writeField
  split <;> rfl

theorem mergeField_stale (s : ErrorState) (e : ErrorType) (v : Nat) (h : v < s.version) :
    mergeField s e v = s := by
  unfold mergeField
  rw [if_neg (Nat.not_le.mpr h)]

theorem mergeField_write (s : ErrorState) (e : ErrorType) (v : Nat) (hv : s.version ≤ v) :
    mergeField s e v = writeField e v s := by
  unfold mergeField
  rw [if_pos hv]

theorem foldField_cons (s : ErrorState) (a : ErrorType × Nat) (t : List (ErrorType × Nat)) :
    foldField s (a :: t) = foldField (mergeField s a.1 a.2) t := rfl

theorem foldField_no_writer (l : List (ErrorType × Nat)) (s : ErrorState)
    (h : ∀ ev ∈ l, ev.1 = .keep ∨ ev.2 < s.version) : foldField s l = s := by
  induction l with
  | nil => rfl
  | cons a t ih =>
    rw [foldField_cons]
    have hstep : mergeField s a.1 a.2 = s := by
      rcases h a (List.mem_cons_self a t) with hk | hv
      · rw [show a.1 = ErrorType.keep from hk] at *
        exact mergeField_keep s a.2
      · exact mergeField_stale s a.1 a.2 hv
    rw [hstep]
    exact ih (fun ev hev => h ev (List.mem_cons_of_mem a hev))

theorem foldField_max_writer (l : List (ErrorType × Nat)) (e : ErrorType) (v : Nat) :
    ∀ (s : ErrorState), (l.map Prod.snd).Nodup → (e, v) ∈ l → e ≠ .keep → s.version ≤ v →
    (∀ e' v', (e', v') ∈ l → e' ≠ .keep → s.version ≤ v' → v' ≤ v) →
    foldField s l = writeField e v s := by
  induction l with
  | nil => intro s _ hmem; exact absurd hmem (List.not_mem_nil _)
  | cons a t ih =>
    intro s hnd hmem hke hsv hmax
    obtain ⟨a1, a2⟩ := a
    rw [List.map_cons, List.nodup_cons] at hnd
    obtain ⟨hnotin, hndt⟩ := hnd
    rw [foldField_cons]
    rcases List.mem_cons.mp hmem with heq | hmemt
    · obtain ⟨he, hv⟩ := Prod.mk.injEq .. ▸ heq
      subst he; subst hv
      rw [mergeField_write s e v hsv]
      refine foldField_no_writer t _ ?_
      intro ev hev
      by_cases hk : ev.1 = .keep
      · exact Or.inl hk
      · refine Or.inr ?_
        rw [writeField_ver e v s hke]
        by_cases hs : s.version ≤ ev.2
        · have hle : ev.2 ≤ v :=
            hmax ev.1 ev.2 (List.mem_cons_of_mem _ (by simpa using hev)) hk hs
          have hne : ev.2 ≠ v := by
            intro hvv
            apply hnotin
            show v ∈ List.map Prod.snd t
            rw [← hvv]
            exact List.mem_map_of_mem Prod.snd hev
          exact Nat.lt_of_le_of_ne hle hne
        · exact Nat.lt_of_lt_of_le (Nat.lt_of_not_le hs) hsv
    · by_cases hwr : a1 ≠ .keep ∧ s.version ≤ a2
      · obtain ⟨hak, hav⟩ := hwr
        rw [show mergeField s (a1, a2).1 (a1, a2).2 = writeField a1 a2 s from
          mergeField_write s a1 a2 hav]
        have hs1v : (writeField a1 a2 s).version = a2 := writeField_ver a1 a2 s hak
        have ha2v : a2 ≤ v := hmax a1 a2 (List.mem_cons_self _ _) hak hav
        have hsv1 : (writeField a1 a2 s).version ≤ v := by rw [hs1v]; exact ha2v
        have := ih (writeField a1 a2 s) hndt hmemt hke hsv1
          (fun e' v' h' hk' hs' =>
            hmax e' v' (List.mem_cons_of_mem _ h') hk'
              (Nat.le_trans hav (by rw [hs1v] at hs'; exact hs')))
        rw [this]
        exact writeField_indep e v _ s hke
      · have hstep : mergeField s a1 a2 = s := by
          by_cases hak : a1 = ErrorType.keep
          · rw [hak]
            exact mergeField_keep s a2
          · have : ¬ s.version ≤ a2 := fun hle => hwr ⟨hak, hle⟩
            exact mergeField_stale s a1 a2 (Nat.lt_of_not_le this)
        rw [show mergeField s (a1, a2).1 (a1, a2).2 = s from hstep]
        exact ih s hndt hmemt hke hsv
          (fun e' v' h' hk' hs' => hmax e' v' (List.mem_cons_of_mem _ h') hk' hs')

theorem exists_max_entry (P : ErrorType × Nat → Prop) (l : List (ErrorType × Nat))
    (h : ∃ ev ∈ l, P ev) :
    ∃ ev ∈ l, P ev ∧ ∀ ev' ∈ l, P ev' → ev'.2 ≤ ev.2 := by
  induction l with
  | nil => obtain ⟨ev, hev, _⟩ := h; exact absurd hev (List.not_mem_nil _)
  | cons a t ih =>
    by_cases ht : ∃ ev ∈ t, P ev
    · obtain ⟨b, hbt, hPb, hbmax⟩ := ih ht
      by_cases hPa : P a
      · rcases Nat.le_total a.2 b.2 with h1 | h2
        · refine ⟨b, List.mem_cons_of_mem a hbt, hPb, ?_⟩
          intro ev' hev' hP'
          rcases List.mem_cons.mp hev' with he | he
          · exact he ▸ h1
          · exact hbmax ev' he hP'
        · refine ⟨a, List.mem_cons_self a t, hPa, ?_⟩
          intro ev' hev' hP'
          rcases List.mem_cons.mp hev' with he | he
          · exact he ▸ Nat.le_refl _
          · exact Nat.le_trans (hbmax ev' he hP') h2
      · refine ⟨b, List.mem_cons_of_mem a hbt, hPb, ?_⟩
        intro ev' hev' hP'
        rcases List.mem_cons.mp hev' with he | he
        · exact absurd (he ▸ hP') hPa
        · exact hbmax ev' he hP'
    · obtain ⟨c, hc, hPc⟩ := h
      rcases List.mem_cons.mp hc with hce | hct
      · refine ⟨a, List.mem_cons_self a t, hce ▸ hPc, ?_⟩
        intro ev' hev' hP'
        rcases List.mem_cons.mp hev' with he | he
        · exact he ▸ Nat.le_refl _
        · exact absurd ⟨ev', he, hP'⟩ ht
      · exact absurd ⟨c, hct, hPc⟩ ht

theorem foldField_perm (l l' : List (ErrorType × Nat)) (s : ErrorState)
    (hp : l.Perm l') (hnd : (l.map Prod.snd).Nodup) :
    foldField s l = foldField s l' := by
  by_cases hw : ∃ ev ∈ l, ev.1 ≠ ErrorType.keep ∧ s.version ≤ ev.2
  · obtain ⟨⟨e, v⟩, hmem, ⟨hke, hsv⟩, hmax⟩ :=
      exists_max_entry (fun ev => ev.1 ≠ ErrorType.keep ∧ s.version ≤ ev.2) l hw
    have hnd' : (l'.map Prod.snd).Nodup := ((hp.map Prod.snd).nodup_iff).mp hnd
    have h1 := foldField_max_writer l e v s hnd hmem hke hsv
      (fun e' v' h' hk' hs' => hmax (e', v') h' ⟨hk', hs'⟩)
    have h2 := foldField_max_writer l' e v s hnd' (hp.mem_iff.mp hmem) hke hsv
      (fun e' v' h' hk' hs' => hmax (e', v') (hp.mem_iff.mpr h') ⟨hk', hs'⟩)
    rw [h1, h2]
  · have hno : ∀ ev ∈ l, ev.1 = ErrorType.keep ∨ ev.2 < s.version := by
      intro ev hev
      by_cases hk : ev.1 = ErrorType.keep
      · exact Or.inl hk
      · refine Or.inr (Nat.lt_of_not_le fun hle => hw ⟨ev, hev, hk, hle⟩)
    have hno' : ∀ ev ∈ l', ev.1 = ErrorType.keep ∨ ev.2 < s.version :=
      fun ev hev => hno ev (hp.mem_iff.mpr hev)
    rw [foldField_no_writer l s hno, foldField_no_writer l' s hno']

theorem mergeAll_eq_map (passes : List MergePass) (states : List (String × ErrorState)) :
    mergeAll states passes
      = states.map (fun p =>
          (p.1, foldField p.2 (passes.map (fun q => (q.errs p.1, q.version))))) := by
  induction passes generalizing states with
  | nil => simp [mergeAll, foldField]
  | cons q t ih =>
    show mergeAll (mergeError states q.errs q.version) t = _
    rw [mergeError_eq_map, ih, List.map_map]
    exact List.map_congr_left (fun p _ => rfl)

theorem lookup_map_snd (states : List (String × ErrorState))
    (g : String → ErrorState → ErrorState) (k : String) (s : ErrorState)
    (hkeys : (states.map Prod.fst).Nodup) (h : (k, s) ∈ states) :
    (states.map (fun p => (p.1, g p.1 p.2))).lookup k = some (g k s) := by
  induction states with
  | nil => exact absurd h (List.not_mem_nil _)
  | cons a t ih =>
    obtain ⟨ak, av⟩ := a
    rw [List.map_cons, List.nodup_cons] at hkeys
    obtain ⟨hnotin, hndt⟩ := hkeys
    by_cases hk : k = ak
    · subst hk
      have hs : s = av := by
        rcases List.mem_cons.mp h with he | ht
        · exact (Prod.mk.injEq .. ▸ he).2
        · exact absurd (List.mem_map_of_mem Prod.fst ht) hnotin
      subst hs
      simp [List.lookup]
    · have ht : (k, s) ∈ t := by
        rcases List.mem_cons.mp h with he | ht
        · exact absurd (Prod.mk.injEq .. ▸ he).1 hk
        · exact ht
      have hbeq : (k == ak) = false := beq_eq_false_iff_ne.mpr hk
      simp only [List.map_cons, List.lookup, hbeq]
      exact ih hndt ht

/-- C1: for every initial error store and every finite collection of
validation-pass results stamped with pairwise-distinct versions, merging
them via `mergeError` is order-independent, and every field written by
some pass (a non-Keep entry whose version passes the guard against the
field's stored version) ends in the state written by the highest-version
pass that wrote it. -/
theorem mergeAll_highest_version_wins (states : List (String × ErrorState))
    (passes passes' : List MergePass)
    (hkeys : (states.map Prod.fst).Nodup)
    (hvers : (passes.map MergePass.version).Nodup)
    (hperm : passes.Perm passes') :
    mergeAll states passes = mergeAll states passes' ∧
    ∀ k s, (k, s) ∈ states →
      ∀ p ∈ passes, p.errs k ≠ ErrorType.keep → s.version ≤ p.version →
        (∀ q ∈ passes, q.errs k ≠ ErrorType.keep → s.version ≤ q.version →
          q.version ≤ p.version) →
        (mergeAll states passes).lookup k = some (writeField (p.errs k) p.version s) := by
  have projNodup : ∀ k : String,
      ((passes.map (fun q => (q.errs k, q.version))).map Prod.snd).Nodup := by
    intro k
    rw [List.map_map]
    exact hvers
  constructor
  · rw [mergeAll_eq_map passes states, mergeAll_eq_map passes' states]
    refine List.map_congr_left ?_
    intro p _
    rw [foldField_perm _ _ _ (hperm.map _) (projNodup p.1)]
  · intro k s hks p hp hke hsv hmax
    rw [mergeAll_eq_map]
    have hlook : (states.map (fun p =>
        (p.1, foldField p.2 (passes.map (fun q => (q.errs p.1, q.version)))))).lookup k
        = some (foldField s (passes.map (fun q => (q.errs k, q.version)))) :=
      lookup_map_snd states
        (fun k s => foldField s (passes.map (fun q => (q.errs k, q.version)))) k s hkeys hks
    rw [hlook]
    congr 1
    refine foldField_max_writer _ _ _ _ (projNodup k)
      (List.mem_map_of_mem _ hp) hke hsv ?_
    intro e' v' hmem' hk' hs'
    obtain ⟨q, hq, heq⟩ := List.mem_map.mp hmem'
    obtain ⟨he1, he2⟩ := Prod.mk.injEq .. ▸ heq
    exact he2 ▸ hmax q hq (he1 ▸ hk') (he2 ▸ hs')

/-- Witness for C1 at a concrete input: two passes with versions 2 and 3
merge to the same store in either completion order. -/
theorem mergeAll_highest_version_wins_witness :
    mergeAll [("f", ⟨none, none, 1⟩)]
        [⟨fun _ => ErrorType.msg "a", 2⟩, ⟨fun _ => ErrorType.efalse, 3⟩]
      = mergeAll [("f", ⟨none, none, 1⟩)]
        [⟨fun _ => ErrorType.efalse, 3⟩, ⟨fun _ => ErrorType.msg "a", 2⟩] :=
  (mergeAll_highest_version_wins [("f", ⟨none, none, 1⟩)]
    [⟨fun _ => ErrorType.msg "a", 2⟩, ⟨fun _ => ErrorType.efalse, 3⟩]
    [⟨fun _ => ErrorType.efalse, 3⟩, ⟨fun _ => ErrorType.msg "a", 2⟩]
    (by decide) (by decide) (List.Perm.swap _ _ _)).1

/-- A fired user action (`Trigger` in the source): `change`, `blur` or
`submit`. -/
inductive Trigger where
  | change
  | blur
  | submit
deriving DecidableEq, Repr

/-- The string a fired trigger compares against (`trigger === triggers` and
`trigger + '!' === triggers` compare the fired trigger's name with a
declared trigger-option string). -/
def Trigger.toStr : Trigger → String
  | .change => "change"
  | .blur => "blur"
  | .submit => "submit"

/-- One declared trigger option: a plain name (`TriggerSimpleOption`, kept
as the raw string so that the forcing suffix `!` is literal, as in the
source) or an object `{trigger, fields?}` (`TriggerObjectOption`). -/
inductive TriggerOption where
  | simple (s : String)
  | object (trigger : String) (fields : List String)
deriving DecidableEq, Repr

/-- A trigger specification (`TriggersOption`): one option or an array of
options. -/
inductive TriggersOption where
  | single (t : TriggerOption)
  | list (l : List TriggerOption)
deriving DecidableEq, Repr

/-- The verdict of the trigger resolver (`TriggerMatch`). -/
inductive TriggerMatch where
  | FullMatch
  | OptionMatch
  | NotMatch
deriving DecidableEq, Repr

/-- Default trigger set for a bare function validator
(`DEFAULT_TRIGGER_OPTIONS = ['change', 'blur']`). -/
def DEFAULT_TRIGGER_OPTIONS : List TriggerOption :=
  [.simple "change", .simple "blur"]

/-- The two guarded comparisons of `checkTriggers` for a single
(non-array) trigger option: a plain-name match is a `FullMatch` for
`change` and an `OptionMatch` otherwise, and a name carrying the forcing
suffix `!` is always a `FullMatch`; object options additionally match when
the triggering field is listed in their `fields` fan-out list. -/
def checkSimpleOrObject (opt : TriggerOption) (trigger : Trigger)
    (ownerField triggerField : String) : TriggerMatch :=
  match opt with
  | .simple s =>
    if trigger.toStr = s ∧ ownerField = triggerField then
      (if trigger = .change then .FullMatch else .OptionMatch)
    else if trigger.toStr ++ "!" = s ∧ ownerField = triggerField then .FullMatch
    else .NotMatch
  | .object t fields =>
    if trigger.toStr = t ∧ (ownerField = triggerField ∨ triggerField ∈ fields) then
      (if trigger = .change then .FullMatch else .OptionMatch)
    else if trigger.toStr ++ "!" = t ∧ (ownerField = triggerField ∨ triggerField ∈ fields) then
      .FullMatch
    else .NotMatch

/-- The recursive call `checkTriggers(extraTriggers, trigger, ownerField,
triggerField)` made with no further extra triggers: for an array this is
the element loop (a `FullMatch` anywhere wins, otherwise any `OptionMatch`
counts) and for a single option the two guarded comparisons. -/
def checkTriggersAux (triggers : TriggersOption) (trigger : Trigger)
    (ownerField triggerField : String) : TriggerMatch :=
  match triggers with
  | .single opt => checkSimpleOrObject opt trigger ownerField triggerField
  | .list l =>
    if l.any (fun o => checkSimpleOrObject o trigger ownerField triggerField == .FullMatch) then
      .FullMatch
    else if l.any (fun o => checkSimpleOrObject o trigger ownerField triggerField == .OptionMatch) then
      .OptionMatch
    else .NotMatch

/-- The evaluation of one element of the spec with the extra-trigger
fallback: when neither guarded comparison matches, control falls through
to `checkTriggers(extraTriggers, ...)`. -/
def checkElem (opt : TriggerOption) (trigger : Trigger)
    (ownerField triggerField : String) (extra : Option TriggersOption) : TriggerMatch :=
  let m := checkSimpleOrObject opt trigger ownerField triggerField
  if m = .NotMatch then
    match extra with
    | some e => checkTriggersAux e trigger ownerField triggerField
    | none => .NotMatch
  else m

/-- Shallow embedding of `checkTriggers(triggers, trigger, ownerField,
triggerField, extraTriggers?)` (src/src/index.ts, lines 313-339).  For an
array the loop recurses into each element passing `extraTriggers` down
(the array branch itself returns without consulting `extraTriggers`); a
`FullMatch` from any element short-circuits, any `OptionMatch` without a
later `FullMatch` yields `OptionMatch`. -/
def checkTriggers (triggers : TriggersOption) (trigger : Trigger)
    (ownerField triggerField : String) (extra : Option TriggersOption) : TriggerMatch :=
  match triggers with
  | .single opt => checkElem opt trigger ownerField triggerField extra
  | .list l =>
    if l.any (fun o => checkElem o trigger ownerField triggerField extra == .FullMatch) then
      .FullMatch
    else if l.any (fun o => checkElem o trigger ownerField triggerField extra == .OptionMatch) then
      .OptionMatch
    else .NotMatch

/-- C5: the four concrete verdicts of the trigger resolver:
`('change','change','f','f')` is a full match, `('blur','blur','f','f')` a
soft (option) match, `('blur!','blur','f','f')` a full match, and
`({trigger:'blur',fields:['g']},'blur','f','g')` a soft match. -/
theorem checkTriggers_concrete_verdicts :
    checkTriggers (.single (.simple "change")) .change "f" "f" none = .FullMatch ∧
    checkTriggers (.single (.simple "blur")) .blur "f" "f" none = .OptionMatch ∧
    checkTriggers (.single (.simple "blur!")) .blur "f" "f" none = .FullMatch ∧
    checkTriggers (.single (.object "blur" ["g"])) .blur "f" "g" none = .OptionMatch := by
  refine ⟨?_, ?_, ?_, ?_⟩ <;> decide

/-- The JavaScript values that flow through the form: `undefined`, `null`,
booleans, strings, and DOM `Event` objects carrying a `target.value`. -/
inductive JsValue where
  | jsUndefined
  | null
  | bool (b : Bool)
  | str (s : String)
  | event (targetValue : String)
deriving DecidableEq, Repr

/-- JavaScript truthiness of the modelled values (`!value`). -/
def jsFalsy : JsValue → Bool
  | .jsUndefined => true
  | .null => true
  | .bool b => !b
  | .str s => s == ""
  | .event _ => false

/-- A JavaScript runtime error; `typeError prop` is the `TypeError` thrown
by reading property `prop` of `null` or `undefined`. -/
inductive JsError where
  | typeError (prop : String)
deriving DecidableEq, Repr

/-- Property access `v[prop]`: throws a `TypeError` on `null`/`undefined`;
on the other modelled values the accessed wrapper properties
(`originalEvent`, `nativeEvent`) do not exist, so the access yields
`undefined`. -/
def getProp (v : JsValue) (prop : String) : Except JsError JsValue :=
  match v with
  | .jsUndefined => .error (.typeError prop)
  | .null => .error (.typeError prop)
  | _ => .ok .jsUndefined

/-- The `value instanceof Event` test. -/
def isEventInstance : JsValue → Bool
  | .event _ => true
  | _ => false

/-- A value thrown by a validator: a `FieldValidateError` carrying a target
field, or a plain throw (a string or an `Error`-like object) normalised to
its message, exactly as the catch sites stringify it. -/
inductive ValErr where
  | fieldErr (field : String) (message : String)
  | plainErr (message : String)
deriving DecidableEq, Repr

/-- A field validator function (`FieldFunctionValidator`), tagged with an
identifier so that executions can be observed; `run` receives
`(value, error, values, errors, trigger)` and may throw. -/
structure ValFn where
  id : Nat
  run : JsValue → ErrorState → (String → JsValue) → (String → ErrorState) → Trigger →
    Except ValErr Unit

/-- One element of an array validator: a bare function or an
object-with-triggers (`FieldFunctionValidator | FieldObjectValidator`). -/
inductive FieldValidatorElem where
  | fn (v : ValFn)
  | obj (triggers : TriggersOption) (v : ValFn)

/-- A per-field validator specification (`FieldValidators[field]`): a bare
function, an object pairing triggers with a function, or an array of
either. -/
inductive FieldValidatorSpec where
  | fn (v : ValFn)
  | obj (triggers : TriggersOption) (v : ValFn)
  | arr (l : List FieldValidatorElem)

/-- The per-call state threaded through `processFieldValidator`: the shared
mutable `errorsOut` object, the identifiers of the validators invoked so
far, and the pending thrown error, if any. -/
structure PFVState where
  out : String → ErrorType
  execs : List Nat
  err : Option ValErr

/-- Pointwise update of a JS-object-as-function (`obj[key] = value`). -/
def updF (f : String → ErrorType) (k : String) (v : ErrorType) : String → ErrorType :=
  fun x => if x == k then v else f x

/-- The body of `processFieldValidator` for a single (function or object)
validator (src/src/index.ts, lines 349-368): resolve the triggers with the
implicit `'submit'` extra fallback; on `NotMatch` do nothing; run the
validator when the match is full or the owner field's stored error is
still `undefined`; on success write `Error_Reset` (change-triggered) or
`Error_False` into `errorsOut` unless the slot is already pinned to
`Error_Reset`; a thrown error is recorded and propagates to the caller. -/
def processSingle (errors : String → ErrorState) (values : String → JsValue)
    (triggers : TriggersOption) (v : ValFn) (processorField : String)
    (trigger : Trigger) (triggerField : String) (st : PFVState) : PFVState :=
  let m := checkTriggers triggers trigger processorField triggerField
    (some (.single (.simple "submit")))
  if m = .NotMatch then st
  else if m = .FullMatch ∨ (errors processorField).error = none then
    match v.run (values processorField) (errors processorField) values errors trigger with
    | .error e => { st with execs := st.execs ++ [v.id], err := some e }
    | .ok _ =>
      let out' :=
        if st.out processorField = .reset then st.out
        else updF st.out processorField (if trigger = .change then .reset else .efalse)
      { out := out', execs := st.execs ++ [v.id], err := none }
  else st

/-- Shallow embedding of `processFieldValidator` (src/src/index.ts, lines
341-374): a bare function gets `DEFAULT_TRIGGER_OPTIONS`, an object its
declared triggers, and an array is processed element by element in
declaration order, a thrown error aborting the remaining elements. -/
def processFieldValidator (errors : String → ErrorState) (values : String → JsValue)
    (p : FieldValidatorSpec) (processorField : String) (trigger : Trigger)
    (triggerField : String) (st : PFVState) : PFVState :=
  match p with
  | .fn v =>
    processSingle errors values (.list DEFAULT_TRIGGER_OPTIONS) v processorField trigger
      triggerField st
  | .obj t v => processSingle errors values t v processorField trigger triggerField st
  | .arr l =>
    l.foldl (fun acc e =>
      if acc.err.isSome then acc
      else
        match e with
        | .fn v =>
          processSingle errors values (.list DEFAULT_TRIGGER_OPTIONS) v processorField
            trigger triggerField acc
        | .obj t v => processSingle errors values t v processorField trigger triggerField acc)
      st

/-- Per-invocation meta entry for one field (`{change: bool, blur: bool}`). -/
structure MetaEntry where
  change : Bool
  blur : Bool
deriving DecidableEq, Repr

/-- Meta lookup with the JS-object default (every key of a meta object is
populated when it is built, so the default is never observed in the
orchestrator). -/
def metaF (meta : List (String × MetaEntry)) (k : String) : MetaEntry :=
  (meta.lookup k).getD ⟨false, false⟩

/-- Shallow embedding of `extractTrigger(field, meta, submit)`
(src/src/index.ts, lines 281-287). -/
def extractTrigger (field : String) (meta : List (String × MetaEntry)) (submit : Bool) :
    Option Trigger :=
  if (metaF meta field).change then some .change
  else if (metaF meta field).blur then some .blur
  else if submit then some .submit
  else none

/-- The value a whole-form validate call produces: the `ErrorsResult` (or
the error it threw), together with the identifiers of the validators it
invoked. -/
structure ValidateResult where
  result : Except ValErr (String → ErrorType)
  execs : List Nat

/-- The shape of the caller-supplied `validate` function:
`(values, errors, meta, submit)`. -/
def ValidateFn : Type :=
  (String → JsValue) → List (String × ErrorState) → List (String × MetaEntry) → Bool →
    ValidateResult

/-- Shallow embedding of `createValidator(processors)` (src/src/index.ts,
lines 376-400).  For every field whose meta indicates change or blur, or
when submitting, the fired trigger is extracted and every field's
validator spec is processed against it; `Promise.all` over the per-field
tasks is modelled by running the tasks in field order (validators are
modelled as pure, so this linearisation is faithful); each task catches
thrown errors, pinning a `FieldValidateError` to its named field and any
other throw to the task's own field.  The `errorsOut` object starts as
`createKeepErrors` (all fields `Error_Keep`) and is returned; the function
itself never throws. -/
def createValidator (processors : List (String × FieldValidatorSpec)) : ValidateFn :=
  fun values errors meta submit =>
    let errF : String → ErrorState := fun k => (errors.lookup k).getD ⟨none, none, 0⟩
    let fields := processors.map Prod.fst
    let init : PFVState := ⟨fun _ => .keep, [], none⟩
    let final := fields.foldl (fun (st : PFVState) field =>
      if (metaF meta field).change || (metaF meta field).blur || submit then
        match extractTrigger field meta submit with
        | none => st
        | some trigger =>
          fields.foldl (fun st2 processorField =>
            match processors.lookup processorField with
            | none => st2
            | some p =>
              let r := processFieldValidator errF values p processorField trigger field
                { st2 with err := none }
              match r.err with
              | some (.fieldErr f m) => ⟨updF r.out f (.msg m), r.execs, none⟩
              | some (.plainErr m) => ⟨updF r.out processorField (.msg m), r.execs, none⟩
              | none => ⟨r.out, r.execs, none⟩) st
      else st) init
    ⟨.ok final.out, final.execs⟩

theorem processSingle_execs (errors : String → ErrorState) (values : String → JsValue)
    (triggers : TriggersOption) (v : ValFn) (pf : String) (trigger : Trigger)
    (tf : String) (out : String → ErrorType) :
    (processSingle errors values triggers v pf trigger tf ⟨out, [], none⟩).execs
      = if checkTriggers triggers trigger pf tf (some (.single (.simple "submit"))) ≠ .NotMatch
          ∧ (checkTriggers triggers trigger pf tf (some (.single (.simple "submit"))) = .FullMatch
             ∨ (errors pf).error = none)
        then [v.id] else [] := by
  simp only [processSingle]
  by_cases hn : checkTriggers triggers trigger pf tf (some (.single (.simple "submit"))) = .NotMatch
  · simp [hn]
  · by_cases hc : checkTriggers triggers trigger pf tf (some (.single (.simple "submit"))) = .FullMatch
      ∨ (errors pf).error = none
    · have hcond : checkTriggers triggers trigger pf tf
          (some (TriggersOption.single (TriggerOption.simple "submit"))) ≠ .NotMatch
          ∧ (checkTriggers triggers trigger pf tf
              (some (TriggersOption.single (TriggerOption.simple "submit"))) = .FullMatch
             ∨ (errors pf).error = none) := ⟨hn, hc⟩
      rw [if_neg hn, if_pos hc, if_pos hcond]
      cases hrun : v.run (values pf) (errors pf) values errors trigger <;> simp
    · rw [if_neg hn, if_neg hc, if_neg (fun h => hc h.2)]

theorem checkSimpleOrObject_simple (s : String) (tr : Trigger) (o tf : String) :
    checkSimpleOrObject (.simple s) tr o tf
      = if tr.toStr = s ∧ o = tf then
          (if tr = .change then .FullMatch else .OptionMatch)
        else if tr.toStr ++ "!" = s ∧ o = tf then .FullMatch
        else .NotMatch := rfl

theorem checkTriggersAux_single (opt : TriggerOption) (tr : Trigger) (o tf : String) :
    checkTriggersAux (.single opt) tr o tf = checkSimpleOrObject opt tr o tf := rfl

theorem checkSimple_name_mismatch (s : String) (tr : Trigger) (o tf : String)
    (h1 : tr.toStr ≠ s) (h2 : tr.toStr ++ "!" ≠ s) :
    checkSimpleOrObject (.simple s) tr o tf = .NotMatch := by
  rw [checkSimpleOrObject_simple]
  rw [if_neg (show ¬(tr.toStr = s ∧ o = tf) from fun hh => h1 hh.1)]
  rw [if_neg (show ¬(tr.toStr ++ "!" = s ∧ o = tf) from fun hh => h2 hh.1)]

theorem checkTriggersAux_submit_self (pf : String) :
    checkTriggersAux (.single (.simple "submit")) .submit pf pf = .OptionMatch := by
  rw [checkTriggersAux_single, checkSimpleOrObject_simple]
  rw [if_pos (show Trigger.toStr .submit = "submit" ∧ pf = pf from ⟨rfl, rfl⟩)]
  rw [if_neg (show ¬ Trigger.submit = Trigger.change by decide)]

theorem checkElem_fallback (opt : TriggerOption) (tr : Trigger) (o tf : String)
    (extra : TriggersOption) (h : checkSimpleOrObject opt tr o tf = .NotMatch) :
    checkElem opt tr o tf (some extra) = checkTriggersAux extra tr o tf := by
  simp only [checkElem]
  rw [h, if_pos rfl]

theorem checkElem_direct (opt : TriggerOption) (tr : Trigger) (o tf : String)
    (extra : Option TriggersOption) (h : checkSimpleOrObject opt tr o tf ≠ .NotMatch) :
    checkElem opt tr o tf extra = checkSimpleOrObject opt tr o tf := by
  simp only [checkElem]
  rw [if_neg h]

theorem checkElem_submit_diagonal (opt : TriggerOption) (pf : String) :
    checkElem opt .submit pf pf (some (.single (.simple "submit"))) ≠ .NotMatch := by
  by_cases h : checkSimpleOrObject opt .submit pf pf = .NotMatch
  · rw [checkElem_fallback _ _ _ _ _ h, checkTriggersAux_submit_self pf]
    decide
  · rw [checkElem_direct _ _ _ _ _ h]
    exact h

theorem checkTriggers_list_def (l : List TriggerOption) (tr : Trigger) (o tf : String)
    (extra : Option TriggersOption) :
    checkTriggers (.list l) tr o tf extra
      = if l.any (fun x => checkElem x tr o tf extra == .FullMatch) then .FullMatch
        else if l.any (fun x => checkElem x tr o tf extra == .OptionMatch) then .OptionMatch
        else .NotMatch := rfl

theorem checkTriggers_submit_diagonal (triggers : TriggersOption) (pf : String)
    (hne : match triggers with | .single _ => True | .list l => l ≠ []) :
    checkTriggers triggers .submit pf pf (some (.single (.simple "submit"))) ≠ .NotMatch := by
  match triggers with
  | .single opt => exact checkElem_submit_diagonal opt pf
  | .list l =>
    rw [checkTriggers_list_def]
    by_cases h1 : l.any (fun o =>
        checkElem o .submit pf pf (some (.single (.simple "submit"))) == .FullMatch)
    · simp [h1]
    · by_cases h2 : l.any (fun o =>
          checkElem o .submit pf pf (some (.single (.simple "submit"))) == .OptionMatch)
      · simp [h1, h2]
      · exfalso
        match l, hne with
        | a :: t, _ =>
          simp only [List.any_cons, Bool.or_eq_true, beq_iff_eq, not_or] at h1 h2
          have ha := checkElem_submit_diagonal a pf
          cases hval : checkElem a .submit pf pf (some (.single (.simple "submit")))
          · exact h1.1 hval
          · exact h2.1 hval
          · exact ha hval

theorem checkElem_default_submit (o : TriggerOption) (pf : String)
    (ho : o ∈ DEFAULT_TRIGGER_OPTIONS) :
    checkElem o .submit pf pf (some (.single (.simple "submit"))) = .OptionMatch := by
  have hho : o = TriggerOption.simple "change" ∨ o = TriggerOption.simple "blur" := by
    simpa [DEFAULT_TRIGGER_OPTIONS] using ho
  have hnm : checkSimpleOrObject o .submit pf pf = .NotMatch := by
    rcases hho with h | h <;> subst h <;>
      exact checkSimple_name_mismatch _ _ _ _ (by decide) (by decide)
  simp only [checkElem]
  rw [hnm, if_pos rfl]
  exact checkTriggersAux_submit_self pf

/-- C4 counterexample: one field `"f"` whose validator is an
object-with-triggers declaring the empty trigger array; a validation pass
with `submit = true` never executes the validator (identifier 7), although
the claim says every validator runs on submission. -/
theorem createValidator_submit_skips_empty_triggers :
    (createValidator [("f", .obj (.list []) ⟨7, fun _ _ _ _ _ => .ok ()⟩)]
        (fun _ => .str "") [("f", ⟨none, none, 1⟩)] [("f", ⟨false, false⟩)] true).execs
      = [] := rfl

/-- C4 amended: on a `submit = true` pass the implicit `'submit'` fallback
guarantees at least a soft match for every bare-function validator and
every object validator whose trigger spec is a single option or a
non-empty array; such a validator is executed iff the match is a full
match or the owner field's stored error is still `undefined`; it is
skipped when the match is merely soft and the field already has an
evaluated error state (and an empty trigger array never matches at all,
per the counterexample). -/
theorem processFieldValidator_submit_fallback (errors : String → ErrorState)
    (values : String → JsValue) (out : String → ErrorType) (v : ValFn) (pf : String)
    (triggers : TriggersOption)
    (hne : match triggers with | .single _ => True | .list l => l ≠ []) :
    checkTriggers triggers .submit pf pf (some (.single (.simple "submit"))) ≠ .NotMatch ∧
    ((processFieldValidator errors values (.obj triggers v) pf .submit pf
        ⟨out, [], none⟩).execs
      = if checkTriggers triggers .submit pf pf (some (.single (.simple "submit")))
            = .FullMatch ∨ (errors pf).error = none
        then [v.id] else []) ∧
    ((processFieldValidator errors values (.fn v) pf .submit pf ⟨out, [], none⟩).execs
      = if (errors pf).error = none then [v.id] else []) := by
  have hdiag := checkTriggers_submit_diagonal triggers pf hne
  refine ⟨hdiag, ?_, ?_⟩
  · show (processSingle errors values triggers v pf .submit pf ⟨out, [], none⟩).execs = _
    rw [processSingle_execs]
    by_cases hc : checkTriggers triggers .submit pf pf (some (.single (.simple "submit")))
        = .FullMatch ∨ (errors pf).error = none
    · have hcond : checkTriggers triggers .submit pf pf
          (some (TriggersOption.single (TriggerOption.simple "submit"))) ≠ .NotMatch
          ∧ (checkTriggers triggers .submit pf pf
              (some (TriggersOption.single (TriggerOption.simple "submit"))) = .FullMatch
             ∨ (errors pf).error = none) := ⟨hdiag, hc⟩
      rw [if_pos hcond, if_pos hc]
    · rw [if_neg (fun h => hc h.2), if_neg hc]
  · show (processSingle errors values (.list DEFAULT_TRIGGER_OPTIONS) v pf .submit pf
        ⟨out, [], none⟩).execs = _
    rw [processSingle_execs]
    have hdef := checkTriggers_submit_diagonal (.list DEFAULT_TRIGGER_OPTIONS) pf
      (by simp [DEFAULT_TRIGGER_OPTIONS])
    have h1 : (DEFAULT_TRIGGER_OPTIONS.any (fun o =>
        checkElem o .submit pf pf (some (.single (.simple "submit"))) == .FullMatch))
        = false := by
      rw [List.any_eq_false]
      intro o ho
      rw [checkElem_default_submit o pf ho]
      decide
    have hnotfull : checkTriggers (.list DEFAULT_TRIGGER_OPTIONS) .submit pf pf
        (some (.single (.simple "submit"))) ≠ .FullMatch := by
      rw [checkTriggers_list_def, h1]
      rw [if_neg (by decide : ¬ false = true)]
      split <;> decide
    by_cases he : (errors pf).error = none
    · have hcond : checkTriggers (.list DEFAULT_TRIGGER_OPTIONS) .submit pf pf
          (some (TriggersOption.single (TriggerOption.simple "submit"))) ≠ .NotMatch
          ∧ (checkTriggers (.list DEFAULT_TRIGGER_OPTIONS) .submit pf pf
              (some (TriggersOption.single (TriggerOption.simple "submit"))) = .FullMatch
             ∨ (errors pf).error = none) := ⟨hdef, Or.inr he⟩
      rw [if_pos hcond, if_pos he]
    · rw [if_neg (fun h => (h.2.elim hnotfull fun h' => he h')), if_neg he]

/-- Witness for the C4 amended theorem at a concrete input: a bare
function validator on an unevaluated field is executed by a submit pass. -/
theorem processFieldValidator_submit_fallback_witness :
    (processFieldValidator (fun _ => ⟨none, none, 1⟩) (fun _ => .str "x")
        (.fn ⟨3, fun _ _ _ _ _ => .ok ()⟩) "f" .submit "f"
        ⟨fun _ => .keep, [], none⟩).execs = [3] := by
  have h := processFieldValidator_submit_fallback (fun _ => ⟨none, none, 1⟩)
    (fun _ => .str "x") (fun _ => .keep) ⟨3, fun _ _ _ _ _ => .ok ()⟩ "f"
    (.single (.simple "change")) trivial
  rw [h.2.2]
  rfl

/-- The hook state of one `useForm` instance: the `values` and `errors`
`useState` cells, the singular `globalErrors` cell, the in-flight
`validatingState` version list, the `submitting` flag, and the module-level
`VERSION` counter (modelled per state so that its increments are
explicit). -/
structure FormState where
  values : String → JsValue
  errors : List (String × ErrorState)
  globalError : ErrorState
  validatingState : List Nat
  submitting : Bool
  version : Nat

/-- Removal of the first occurrence of a version from the in-flight list
(`indexOf` plus `splice` in the `finally` block; the list is returned
unchanged when the version is absent). -/
def removeVersion : List Nat → Nat → List Nat
  | [], _ => []
  | x :: t, v => if x = v then t else x :: removeVersion t v

/-- The synchronous prefix of `execValidate` (src/src/index.ts, lines
462-468): allocate `version = ++VERSION` and push it onto
`validatingState`. -/
def execValidateStart (s : FormState) : FormState × Nat :=
  let version := s.version + 1
  ({ s with version := version, validatingState := s.validatingState ++ [version] }, version)

/-- The continuation of `execValidate` after `await validate(...)` settles
(src/src/index.ts, lines 468-524), with the value of `unmountRef.current`
at resume time passed in explicitly.  A successful result is merged under
the pass version (the write skipped when unmounted, though `errorsPatch`
is still set); a `FieldValidateError` merges a single-field patch; any
other throw is pinned to the fields touched per `meta`, or becomes a
version-guarded global error when no field was touched; every
unmount-guarded write is skipped when unmounted.  The `finally` block
removes the version from `validatingState` without consulting
`unmountRef`.  Returns the new state with the `errorsPatch` and
`globalError` locals of the source. -/
def execValidateComplete (unmounted : Bool) (s : FormState) (version : Nat)
    (meta : List (String × MetaEntry)) (res : Except ValErr (String → ErrorType)) :
    FormState × Option (String → ErrorType) × Option String :=
  let step :=
    match res with
    | .ok out =>
      ((if unmounted then s else { s with errors := mergeError s.errors out version }),
        some out, (none : Option String))
    | .error (.fieldErr f m) =>
      if unmounted then (s, none, none)
      else
        let out := updF (fun _ => ErrorType.keep) f (.msg m)
        ({ s with errors := mergeError s.errors out version }, some out, none)
    | .error (.plainErr m) =>
      if unmounted then (s, none, none)
      else
        let touched := (meta.filter
          (fun (p : String × MetaEntry) => p.2.change || p.2.blur)).map Prod.fst
        if touched.isEmpty then
          ({ s with globalError :=
              if s.globalError.version ≤ version then ⟨some true, some m, version⟩
              else s.globalError }, none, some m)
        else
          let out := touched.foldl (fun acc f => updF acc f (.msg m))
            (fun _ => ErrorType.keep)
          ({ s with errors := mergeError s.errors out version }, some out, none)
  ({ step.1 with validatingState := removeVersion step.1.validatingState version },
    step.2.1, step.2.2)

/-- Shallow embedding of one whole `execValidate(values, meta, submit)`
call run to completion: the synchronous prefix, the validate call (which
sees the pre-pass `errors`), and the continuation.  Returns the final
state together with the source's `[errorsPatch, globalError, version]`
return value. -/
def execValidate (validate : ValidateFn) (unmounted : Bool) (s : FormState)
    (values : String → JsValue) (meta : List (String × MetaEntry)) (submit : Bool) :
    FormState × Option (String → ErrorType) × Option String × Nat :=
  let (s1, version) := execValidateStart s
  let vr := validate values s1.errors meta submit
  let (s2, patch, g) := execValidateComplete unmounted s1 version meta vr.result
  (s2, patch, g, version)

/-- Shallow embedding of `hasError(errors, errorsPatch, globalError,
version)` (src/src/index.ts, lines 232-239): merge the patch (if any) into
the given error store at the pass version and report whether any field's
`error` is truthy or the pass produced a (string) global error. -/
def hasError (errors : List (String × ErrorState)) (patch : Option (String → ErrorType))
    (globalError : Option String) (version : Nat) : Bool :=
  let newErrors : List (String × ErrorState) := match patch with
    | some p => mergeError errors p version
    | none => []
  newErrors.any (fun p => p.2.error == some true) || globalError.isSome

/-- The event-unwrapping prefix of a change handler (src/src/index.ts,
lines 533-536): `value instanceof Event || value.originalEvent instanceof
Event || value.nativeEvent instanceof Event` selects `value.target.value`,
otherwise the value itself is the target; reading `originalEvent` off
`null`/`undefined` throws. -/
def extractTarget (value : JsValue) : Except JsError JsValue :=
  if isEventInstance value then
    match value with
    | .event t => .ok (.str t)
    | _ => .ok value
  else
    match getProp value "originalEvent" with
    | .error e => .error e
    | .ok oe =>
      if isEventInstance oe then
        match value with
        | .event t => .ok (.str t)
        | _ => .ok value
      else
        match getProp value "nativeEvent" with
        | .error e => .error e
        | .ok ne =>
          if isEventInstance ne then
            match value with
            | .event t => .ok (.str t)
            | _ => .ok value
          else .ok value

/-- Shallow embedding of `handleChanges[field]` (src/src/index.ts, lines
527-553): a no-op while submitting; otherwise unwrap the event-like
argument (a thrown `TypeError` propagates before any state update),
replace the field's value, and run a validation pass with that field's
change meta over the new values.  Returns the thrown error, if any, with
the resulting state. -/
def handleChange (validate : ValidateFn) (unmounted : Bool) (s : FormState)
    (field : String) (value : JsValue) : Option JsError × FormState :=
  if s.submitting then (none, s)
  else
    match extractTarget value with
    | .error e => (some e, s)
    | .ok target =>
      let newValues := fun k => if k == field then target else s.values k
      let meta := s.errors.map (fun p => (p.1, (⟨p.1 == field, false⟩ : MetaEntry)))
      let s1 := { s with values := newValues }
      let r := execValidate validate unmounted s1 newValues meta false
      (none, r.1)

/-- Shallow embedding of `handleSubmit` (src/src/index.ts, lines 566-579):
a no-op while `validating` or `submitting`; otherwise set `submitting`,
run one exclusive pass with empty meta and `submit = true`, invoke the
caller-supplied `onSubmit` iff `hasError` over the pre-pass errors, the
pass's patch and the pass's global error is false and the instance is
still mounted, and always clear `submitting`.  The returned boolean
records whether `onSubmit` was invoked. -/
def handleSubmit (validate : ValidateFn) (unmounted : Bool) (s : FormState) :
    FormState × Bool :=
  if s.validatingState.length > 0 || s.submitting then (s, false)
  else
    let s1 := { s with submitting := true }
    let meta := s1.errors.map (fun p => (p.1, (⟨false, false⟩ : MetaEntry)))
    let r := execValidate validate unmounted s1 s1.values meta true
    let called := !(hasError s1.errors r.2.1 r.2.2.1 r.2.2.2) && !unmounted
    ({ r.1 with submitting := false }, called)

/-- C6 counterexample: a form instance whose in-flight list holds version
5 is disposed; when the pass resolves, the `finally` block still removes
the version from the `validatingState` hook state (it becomes `[]`), so
hook state is modified by the completion, contrary to the claim. -/
theorem execValidateComplete_writes_after_unmount :
    (execValidateComplete true
        ⟨fun _ => JsValue.str "", [("f", ⟨none, none, 1⟩)], ⟨none, none, 2⟩, [5], false, 5⟩
        5 [("f", ⟨false, false⟩)] (.ok fun _ => ErrorType.efalse)).1.validatingState
      = [] := rfl

/-- C6 amended: once the instance is disposed, a resolving pass leaves the
per-field error state, the global error state, the values and the
submitting flag untouched and its results are discarded, but the pass's
version is still removed from the in-flight `validatingState` list (that
write is not guarded by the unmount check). -/
theorem execValidateComplete_unmounted_discards_results (s : FormState) (version : Nat)
    (meta : List (String × MetaEntry)) (res : Except ValErr (String → ErrorType)) :
    (execValidateComplete true s version meta res).1.errors = s.errors ∧
    (execValidateComplete true s version meta res).1.globalError = s.globalError ∧
    (execValidateComplete true s version meta res).1.values = s.values ∧
    (execValidateComplete true s version meta res).1.submitting = s.submitting ∧
    (execValidateComplete true s version meta res).1.validatingState
      = removeVersion s.validatingState version := by
  rcases res with e | out
  · rcases e with ⟨f, m⟩ | m <;> simp [execValidateComplete]
  · simp [execValidateComplete]

/-- C10: when the form is not submitting, calling the change handler with
`null` or `undefined` throws the `TypeError` raised by reading the
`originalEvent` property of the argument, before any state update: the
returned state is the input state, values and errors included. -/
theorem handleChange_nullish_throws (validate : ValidateFn) (unmounted : Bool)
    (values : String → JsValue) (errors : List (String × ErrorState))
    (g : ErrorState) (vs : List Nat) (ver : Nat) (field : String) :
    handleChange validate unmounted ⟨values, errors, g, vs, false, ver⟩ field .null
      = (some (.typeError "originalEvent"), ⟨values, errors, g, vs, false, ver⟩) ∧
    handleChange validate unmounted ⟨values, errors, g, vs, false, ver⟩ field .jsUndefined
      = (some (.typeError "originalEvent"), ⟨values, errors, g, vs, false, ver⟩) :=
  ⟨rfl, rfl⟩

/-- The library's `required` validator (validators module): throws the
message when the value is falsy. -/
def requiredVal (id : Nat) : ValFn :=
  ⟨id, fun value _ _ _ _ => if jsFalsy value then .error (.plainErr "Required") else .ok ()⟩

/-- The submission-scenario form: fields `name` and `email`, both bare
`required` validators. -/
def demoValidate : ValidateFn :=
  createValidator [("name", .fn (requiredVal 0)), ("email", .fn (requiredVal 1))]

/-- The submission-scenario initial hook state: both fields empty, error
states unevaluated with creation versions 1 and 2, global slot version 3,
counter at 3. -/
def demoState0 : FormState :=
  ⟨fun _ => JsValue.str "",
    [("name", ⟨none, none, 1⟩), ("email", ⟨none, none, 2⟩)],
    ⟨none, none, 3⟩, [], false, 3⟩

/-- State after submitting the empty form. -/
def demoState1 : FormState := (handleSubmit demoValidate false demoState0).1

/-- State after then changing `name` to a valid value. -/
def demoState2 : FormState :=
  (handleChange demoValidate false demoState1 "name" (.str "alice")).2

/-- State after then changing `email` to a valid value. -/
def demoState3 : FormState :=
  (handleChange demoValidate false demoState2 "email" (.str "bob")).2

/-- A stored-global-error state: one evaluated clean field, but the global
error slot holds an error from version 2. -/
def storedGlobalState : FormState :=
  ⟨fun _ => JsValue.str "x", [("f", ⟨some false, none, 1⟩)],
    ⟨some true, some "boom", 2⟩, [], false, 2⟩

/-- C3 counterexample: the previously merged state of `storedGlobalState`
shows a global error (`error = some true`), yet submitting with a clean
validation pass invokes `onSubmit`: `hasError` consults only the pass's
own global error, not the stored one. -/
theorem handleSubmit_ignores_stored_global_error :
    (handleSubmit (fun _ _ _ _ => ⟨.ok fun _ => ErrorType.keep, []⟩) false
        storedGlobalState).2 = true
      ∧ storedGlobalState.globalError.error = some true :=
  ⟨rfl, rfl⟩

/-- C3 amended: `handleSubmit` is a no-op while validating or submitting;
otherwise it runs one validation pass with `submit = true` and empty meta
and invokes `onSubmit` iff the pass's patch merged into the pre-pass field
state shows no field error and the pass itself produced no global error (a
previously stored global error does not block submission).  In the
two-empty-required-fields scenario, submitting yields two field errors and
no `onSubmit` call; after both fields are filled with valid values through
the change handlers, resubmitting invokes `onSubmit`. -/
theorem handleSubmit_semantics :
    (∀ (validate : ValidateFn) (unmounted : Bool) (s : FormState),
      s.validatingState.length > 0 ∨ s.submitting = true →
        handleSubmit validate unmounted s = (s, false)) ∧
    (∀ (validate : ValidateFn) (s : FormState),
      s.validatingState = [] → s.submitting = false →
        (handleSubmit validate false s).2
          = !(hasError s.errors
              (execValidate validate false { s with submitting := true } s.values
                (s.errors.map (fun p => (p.1, (⟨false, false⟩ : MetaEntry)))) true).2.1
              (execValidate validate false { s with submitting := true } s.values
                (s.errors.map (fun p => (p.1, (⟨false, false⟩ : MetaEntry)))) true).2.2.1
              (execValidate validate false { s with submitting := true } s.values
                (s.errors.map (fun p => (p.1, (⟨false, false⟩ : MetaEntry)))) true).2.2.2)) ∧
    (handleSubmit demoValidate false demoState0).2 = false ∧
    demoState1.errors = [("name", ⟨some true, some "Required", 4⟩),
      ("email", ⟨some true, some "Required", 4⟩)] ∧
    demoState3.errors = [("name", ⟨none, none, 5⟩), ("email", ⟨none, none, 6⟩)] ∧
    (handleSubmit demoValidate false demoState3).2 = true := by
  refine ⟨?_, ?_, ?_, ?_, ?_, ?_⟩
  · intro validate unmounted s h
    have hcond : (decide (s.validatingState.length > 0) || s.submitting) = true := by
      rcases h with h | h <;> simp [h]
    simp [handleSubmit, hcond]
  · intro validate s h1 h2
    simp [handleSubmit, h1, h2]
  · rfl
  · rfl
  · rfl
  · rfl

/-- Witness for the C3 amended theorem at concrete inputs: a form that is
already submitting is left untouched with `onSubmit` not invoked, and the
iff-condition holds for the scenario's initial state. -/
theorem handleSubmit_semantics_witness :
    handleSubmit demoValidate false
        ⟨fun _ => JsValue.str "", [("f", ⟨none, none, 1⟩)], ⟨none, none, 2⟩, [], true, 2⟩
      = (⟨fun _ => JsValue.str "", [("f", ⟨none, none, 1⟩)], ⟨none, none, 2⟩, [], true, 2⟩,
          false) :=
  handleSubmit_semantics.1 demoValidate false
    ⟨fun _ => JsValue.str "", [("f", ⟨none, none, 1⟩)], ⟨none, none, 2⟩, [], true, 2⟩
    (Or.inr rfl)

/-- A JavaScript value awaited by `Promise.all`: a settled promise
carrying its outcome and the validator identifiers that ran producing it,
or a plain function value.  A function is not a thenable. -/
inductive AsyncVal where
  | resolved (result : Except String Unit) (execs : List Nat)
  | funcVal (thunk : Unit → Except String Unit × List Nat)

/-- Awaiting one value: a settled promise yields its outcome; awaiting a
function value yields the function itself (nothing is invoked), which as a
non-promise awaits to a successful value. -/
def awaitVal : AsyncVal → Except String Unit × List Nat
  | .resolved r ex => (r, ex)
  | .funcVal _ => (.ok (), [])

/-- `Promise.all` over the awaited values: rejects with the first
rejection, otherwise resolves; the executed-validator traces accumulate. -/
def promiseAll (l : List AsyncVal) : Except String Unit × List Nat :=
  l.foldl (fun acc v =>
    let r := awaitVal v
    ((match acc.1 with
      | .error e => .error e
      | .ok _ => r.1), acc.2 ++ r.2)) (.ok (), [])

/-- Shallow embedding of the `parallel(...validators)` combinator
(validators module): `validators.map(validator => async () => { await
validator(...) })` builds, for each validator, an async *function* that is
never invoked, and `Promise.all` is applied to that array of function
values.  Each validator is a pair of an identifier and its throwing
behaviour on the given value; the returned trace records which validators
actually ran. -/
def parallel (validators : List (Nat × (JsValue → Except String Unit))) :
    JsValue → Except String Unit × List Nat :=
  fun value =>
    promiseAll (validators.map (fun v =>
      AsyncVal.funcVal (fun _ =>
        match v.2 value with
        | .ok _ => (.ok (), [v.1])
        | .error e => (.error e, [v.1]))))

/-- Shallow embedding of the `sequence(...validators)` combinator: each
validator is awaited in order, a throw aborting the rest. -/
def sequenceVal (validators : List (Nat × (JsValue → Except String Unit))) :
    JsValue → Except String Unit × List Nat :=
  fun value =>
    validators.foldl (fun acc v =>
      match acc.1 with
      | .error e => (.error e, acc.2)
      | .ok _ =>
        match v.2 value with
        | .ok _ => (.ok (), acc.2 ++ [v.1])
        | .error e => (.error e, acc.2 ++ [v.1])) (.ok (), [])

/-- C7: the combined validator built by `parallel` never invokes any of
the given validators and always resolves successfully, even when a
validator would throw: the mapped async functions are never called, and
`Promise.all` over function values resolves at once.  This refutes the
claimed semantics (all validators invoked, completion awaited, rejection
propagated); evaluated at the failing input `parallel [(0, throw "boom")]`
the combined validator resolves with an empty execution trace. -/
theorem parallel_never_runs_validators
    (validators : List (Nat × (JsValue → Except String Unit))) (value : JsValue) :
    parallel validators value = (.ok (), []) := by
  unfold parallel promiseAll
  induction validators with
  | nil => rfl
  | cons v t ih =>
    simp only [List.map_cons, List.foldl_cons]
    exact ih

/-- The library's `sameWith(field, message?)` cross-field equality
validator: throws when the value differs from `values[field]` or — by the
source's condition `(!value && !values[field]) || value !== values[field]`
— also when both are falsy, even if equal. -/
def sameWith (field : String) (message : Option String) :
    JsValue → ErrorState → (String → JsValue) → Except String Unit :=
  fun value _ values =>
    if (jsFalsy value && jsFalsy (values field)) || value != values field then
      .error (message.getD ("Should same with " ++ field))
    else .ok ()

/-- C8 counterexample: with both the value and `values.pwd` the empty
string (equal, but falsy), `sameWith "pwd"` throws, so the predicate does
not accept all equal values. -/
theorem sameWith_rejects_equal_empty :
    sameWith "pwd" none (.str "") ⟨none, none, 0⟩ (fun _ => .str "")
      = .error "Should same with pwd" := rfl

/-- C8 amended: the cross-field equality predicate accepts equal truthy
values: for every field, message and truthy (non-null, non-undefined,
non-empty, non-false) value equal to `values[field]`, `sameWith` does not
throw; when the two values are equal but falsy it throws. -/
theorem sameWith_accepts_equal_truthy (field : String) (message : Option String)
    (v : JsValue) (err : ErrorState) (values : String → JsValue)
    (heq : values field = v) (ht : jsFalsy v = false) :
    sameWith field message v err values = .ok () := by
  unfold sameWith
  rw [heq, ht]
  simp

/-- Witness for the C8 amended theorem at a concrete input: equal
non-empty strings are accepted. -/
theorem sameWith_accepts_equal_truthy_witness :
    sameWith "pwd" none (.str "a") ⟨none, none, 0⟩ (fun _ => .str "a") = .ok () :=
  sameWith_accepts_equal_truthy "pwd" none (.str "a") ⟨none, none, 0⟩
    (fun _ => .str "a") rfl rfl

end FormHook
